import Mathlib

/-!
Shallow embedding of the ebfe/egkdump smart-card dumper: the APDU codec
(src/apdu.go), the file-access layer and payload decoders (src/egkdump.go),
and the earlier revisions kept in src/unnamed/part_000.  Bytes are modelled
as `Nat` (Go `byte` values are < 256; Go conversions such as `byte(n)` and
`uint16(n)` are rendered as explicit `% 256` / `% 65536`).  Go's
multi-return `(data []byte, err error)` becomes `List Nat × Option GoErr`;
a `nil` slice is the empty list.  Go panics are modelled as a `GoErr`
constructor that no caller in this program ever catches, so they propagate
to the top exactly as a panic would.
-/

namespace Egkdump

/-- Error values flowing through the program: an opaque transport failure,
`cardError(sw)` from src/egkdump.go, and a Go panic (uncaught everywhere). -/
inductive GoErr where
  | transportErr : Nat → GoErr
  | cardError : Nat → GoErr
  | goPanic : String → GoErr
deriving DecidableEq, Repr

/-- src/apdu.go line 4: `apduMaxExtended = 0xffff + 1`. -/
def apduMaxExtended : Int := 0xffff + 1

/-- src/apdu.go line 5: `apduMaxShort = 0xff + 1`. -/
def apduMaxShort : Int := 0xff + 1

/-- src/apdu.go line 7: `leWildcard = -1`. -/
def leWildcard : Int := -1

/-- src/apdu.go line 8: `leWildcardExtended = -2`. -/
def leWildcardExtended : Int := -2

/-- src/apdu.go `encodeLength`: encodes a length field.  The out-of-range
branch is Go `panic("apdu length out of range")`. -/
def encodeLength (n : Int) (extended first : Bool) : Except GoErr (List Nat) :=
  if n = leWildcard ∨ n = leWildcardExtended then
    if extended then
      if first then .ok [0, 0, 0] else .ok [0, 0]
    else .ok [0]
  else if n < 0 ∨ n > apduMaxExtended then
    .error (.goPanic "apdu length out of range")
  else if n > 0 then
    if extended then
      let pre : List Nat := if first then [0] else []
      if n = apduMaxExtended then .ok (pre ++ [0, 0])
      else .ok (pre ++ [(n.toNat >>> 8) % 256, n.toNat % 256])
    else
      if n = apduMaxShort then .ok [0]
      else .ok [n.toNat % 256]
  else .ok []

/-- src/apdu.go line 58 (inside `EncodeAPDU`):
`extended = len(data) > apduMaxShort || le > apduMaxShort || le == leWildcardExtended`. -/
def extendedFlag (data : List Nat) (le : Int) : Bool :=
  decide ((data.length : Int) > apduMaxShort) || decide (le > apduMaxShort) ||
    decide (le = leWildcardExtended)

/-- src/apdu.go `EncodeAPDU`: header, Lc field, data, Le field.  The Lc
field is encoded (and would panic) before the Le field, as in Go. -/
def EncodeAPDU (cla ins p1 p2 : Nat) (data : List Nat) (le : Int) :
    Except GoErr (List Nat) :=
  match encodeLength (data.length : Int) (extendedFlag data le) true,
        encodeLength le (extendedFlag data le) (data.length == 0) with
  | .error e, _ => .error e
  | .ok _, .error e => .error e
  | .ok lc, .ok leF => .ok ([cla, ins, p1, p2] ++ lc ++ data ++ leF)

/-- src/apdu.go `DecodeResponseAPDU`: panics on fewer than 2 bytes,
otherwise returns the big-endian trailing status word and the payload
(`nil`, i.e. `[]`, when the input is exactly 2 bytes). -/
def DecodeResponseAPDU (data : List Nat) : Except GoErr (Nat × List Nat) :=
  if data.length < 2 then .error (.goPanic "response apdu too short")
  else if data.length > 2 then
    .ok ((data.getD (data.length - 2) 0) <<< 8 ||| data.getD (data.length - 1) 0,
      data.take (data.length - 2))
  else
    .ok ((data.getD (data.length - 2) 0) <<< 8 ||| data.getD (data.length - 1) 0, [])

/-- The `Card` interface of src/egkdump.go (`Transmit(cmd) ([]byte, error)`),
as an explicit state machine: one transition per transmitted command. -/
structure Card where
  State : Type
  transmit : State → List Nat → State × List Nat × Option GoErr

/-- A transport behaviour given by a fixed script of responses, consumed one
per call; an exhausted script answers with a transport error. -/
def scriptCard : Card where
  State := List (List Nat × Option GoErr)
  transmit := fun s _ =>
    match s with
    | [] => ([], [], some (.transportErr 0))
    | r :: rest => (rest, r.1, r.2)

/-- A transport behaviour answering every command with one fixed response. -/
def constCard (rsp : List Nat) : Card where
  State := Unit
  transmit := fun _ _ => ((), rsp, none)

/-- The `apduLogger` decorator of src/egkdump.go, restricted to what it
observes: it records every transmitted command APDU and delegates. -/
def tracedCard (c : Card) : Card where
  State := c.State × List (List Nat)
  transmit := fun s cmd =>
    let r := c.transmit s.1 cmd
    ((r.1, s.2 ++ [cmd]), r.2.1, r.2.2)

/-- src/egkdump.go `readBinary`: READ BINARY at an absolute 16-bit offset
(`byte(offset>>8)`, `byte(offset)` are the `% 256` conversions). -/
def readBinary (c : Card) (s : c.State) (offset : Nat) (le : Int) :
    c.State × List Nat × Option GoErr :=
  match EncodeAPDU 0x00 0xb0 ((offset >>> 8) % 256) (offset % 256) [] le with
  | .error e => (s, [], some e)
  | .ok apdu =>
    let r := c.transmit s apdu
    match r.2.2 with
    | some e => (r.1, [], some e)
    | none =>
      match DecodeResponseAPDU r.2.1 with
      | .error e => (r.1, [], some e)
      | .ok (sw, data) =>
        if sw ≠ 0x9000 then (r.1, [], some (.cardError sw)) else (r.1, data, none)

/-- src/egkdump.go `readBinarySfid`: READ BINARY in short-file-identifier
form, P1 = `0x80|sfid`, P2 = byte offset. -/
def readBinarySfid (c : Card) (s : c.State) (sfid offset : Nat) (le : Int) :
    c.State × List Nat × Option GoErr :=
  match EncodeAPDU 0x00 0xb0 (0x80 ||| sfid) offset [] le with
  | .error e => (s, [], some e)
  | .ok apdu =>
    let r := c.transmit s apdu
    match r.2.2 with
    | some e => (r.1, [], some e)
    | none =>
      match DecodeResponseAPDU r.2.1 with
      | .error e => (r.1, [], some e)
      | .ok (sw, data) =>
        if sw ≠ 0x9000 then (r.1, [], some (.cardError sw)) else (r.1, data, none)

/-- src/egkdump.go line 45: `efcchaut = 1`. -/
def efcchaut : Nat := 1

/-- src/egkdump.go line 46: `efcchenc = 2`. -/
def efcchenc : Nat := 2

/-- The `for len(raw) < 1<<16` loop of src/egkdump.go `readBinaryFull`,
with explicit fuel (`none` = the fuel ran out with the Go loop still
running).  On a `cardError` equal to `0x6b00` Go executes
`return append(raw, buf...), nil`, where `buf` is the `nil` slice
`readBinary` returned alongside the error. -/
def readBinaryFullLoop (c : Card) (fuel : Nat) (s : c.State) (raw : List Nat) :
    c.State × Option (List Nat × Option GoErr) :=
  match fuel with
  | 0 => (s, none)
  | fuel + 1 =>
    if raw.length < 65536 then
      let r := readBinary c s (raw.length % 65536) apduMaxExtended
      match r.2.2 with
      | some e =>
        if e = GoErr.cardError 0x6b00 then (r.1, some (raw ++ r.2.1, none))
        else (r.1, some ([], some e))
      | none => readBinaryFullLoop c fuel r.1 (raw ++ r.2.1)
    else (s, some (raw, none))

/-- src/egkdump.go `readBinaryFull`: the chained full-file read.  Note that
the first call is `readBinarySfid(card, efcchaut, 0, apduMaxExtended)` —
the `sfid` parameter is not used. -/
def readBinaryFull (c : Card) (fuel : Nat) (s : c.State) (sfid : Nat) :
    c.State × Option (List Nat × Option GoErr) :=
  let r := readBinarySfid c s efcchaut 0 apduMaxExtended
  match r.2.2 with
  | some e => (r.1, some ([], some e))
  | none => readBinaryFullLoop c fuel r.1 r.2.1

/-- src/egkdump.go `checkBCD`: true iff every nibble is a decimal digit. -/
def checkBCD (raw : List Nat) : Bool :=
  raw.all fun b => !(decide (b >>> 4 > 9) || decide (b &&& 0xf > 9))

/-- One iteration of the src/egkdump.go `decodeBCD` loop body
(`x *= 10; x += uint64(b >> 4); x *= 10; x += uint64(b & 0xf)`); every Go
`uint64` operation is taken modulo `2^64`. -/
def decodeBCDStep (x b : Nat) : Nat :=
  ((x * 10 % 18446744073709551616 + b >>> 4) % 18446744073709551616 * 10 %
      18446744073709551616 + (b &&& 0xf)) % 18446744073709551616

/-- src/egkdump.go `decodeBCD`: folds the nibbles into a `uint64`
accumulator. -/
def decodeBCD (raw : List Nat) : Nat :=
  raw.foldl decodeBCDStep 0

/-- Helper for stating theorems: one step of the BCD fold without the
`uint64` wraparound. -/
def bcdStep (x b : Nat) : Nat :=
  x * 100 + ((b >>> 4) * 10 + (b &&& 0xf))

/-- Helper for stating theorems: the number whose decimal digits are the
nibbles of `raw` in order (the "BCD value by decimal place value"). -/
def bcdDigitsValue (raw : List Nat) : Nat :=
  raw.foldl bcdStep 0

/-- src/egkdump.go `parseBCDVersion`: `"<invalid>"` unless the input is 5
valid BCD bytes, else `fmt.Sprintf("%d.%d.%d", x/(10000*1000), (x/10000)%1000,
x%10000)`. -/
def parseBCDVersion (raw : List Nat) : String :=
  if raw.length ≠ 5 ∨ checkBCD raw = false then "<invalid>"
  else
    let x := decodeBCD raw
    toString (x / (10000 * 1000)) ++ "." ++ toString ((x / 10000) % 1000) ++ "." ++
      toString (x % 10000)

/-- The `ICCSN` record of src/egkdump.go. -/
structure ICCSN where
  MajorIndustryIdentifier : Nat
  CountryCode : Nat
  IssuerIdentifier : Nat
  SerialNumber : Nat
deriving DecidableEq, Repr

/-- src/egkdump.go `(*ICCSN).UnmarshalBinary`: requires exactly 10 bytes;
byte 0 is the major industry identifier, bytes 1..9 feed `decodeBCD`, and
the three numeric fields are carved out by decimal division (the Go
`int(...)` conversions are exact because the quotients fit in 63 bits). -/
def ICCSN.UnmarshalBinary (raw : List Nat) : Except String ICCSN :=
  if raw.length ≠ 10 then .error "too short"
  else
    let x := decodeBCD (raw.drop 1)
    .ok { MajorIndustryIdentifier := raw.getD 0 0
          CountryCode := x / 1000000000000000
          IssuerIdentifier := (x / 10000000000) % 100000
          SerialNumber := x % 10000000000 }

/-- `binary.BigEndian.Uint16(b[i:])`: two bytes at position `i`, big-endian. -/
def beUint16 (b : List Nat) (i : Nat) : Nat :=
  (b.getD i 0) <<< 8 ||| b.getD (i + 1) 0

/-- src/unnamed/part_000 `parseVD`, up to the bytes it hands to the external
gzip/XML decoder: reads the big-endian start/end offset pair at positions
0 and 2 and slices `raw[start:end]`, failing (with no slice taken) if
`end < start || end > len(raw)`. -/
def parseVDSlice (raw : List Nat) : Except String (List Nat) :=
  if raw.length < 4 then .error "vd data too short"
  else
    let start := beUint16 raw 0
    let stop := beUint16 raw 2
    if stop < start ∨ stop > raw.length then .error "vd invalid start/end offset"
    else .ok ((raw.drop start).take (stop - start))

/-- src/unnamed/part_000 `parseGVDFromEFVD`, up to the bytes it hands to the
external gzip/XML decoder: same as `parseVDSlice` but the offset pair sits
at positions 4 and 6 and at least 8 bytes are required. -/
def parseGVDSlice (raw : List Nat) : Except String (List Nat) :=
  if raw.length < 8 then .error "gvd data too short"
  else
    let start := beUint16 raw 4
    let stop := beUint16 raw 6
    if stop < start ∨ stop > raw.length then .error "gvd invalid start/end offset"
    else .ok ((raw.drop start).take (stop - start))

/-- The absolute offset named by a READ BINARY command APDU: P1, P2
(bytes 2 and 3) read big-endian. -/
def requestOffset (apdu : List Nat) : Nat :=
  apdu.getD 2 0 * 256 + apdu.getD 3 0

/-- The command APDU `readBinary` transmits for offset `off` with
`le = apduMaxExtended` (helper for stating trace theorems). -/
def rbReq (off : Nat) : List Nat :=
  [0x00, 0xb0, (off >>> 8) % 256, off % 256, 0, 0, 0]

/-- The version split exactly as the specification's words describe it:
the 10-digit BCD value split as digits `[0..2]` / `[2..5]` / `[5..10]` by
decimal place value (2-digit major, 3-digit minor, 5-digit patch).  Stated
only to compare against `parseBCDVersion`. -/
def bcdVersionSpecSplit (raw : List Nat) : String :=
  let x := bcdDigitsValue raw
  toString (x / 100000000) ++ "." ++ toString (x / 100000 % 1000) ++ "." ++
    toString (x % 100000)

/-- The country-code field exactly as the specification's words describe
it: the single most-significant digit of the 18-digit BCD value of bytes
1..9.  Stated only to compare against `ICCSN.UnmarshalBinary`. -/
def iccsnSpecCountryCode (raw : List Nat) : Nat :=
  bcdDigitsValue (raw.drop 1) / 100000000000000000

/-! Helper lemmas. -/

theorem lor_byte (a b : Nat) (hb : b < 256) : a <<< 8 ||| b = a * 256 + b := by
  have hb' : b < 2 ^ 8 := by simpa using hb
  have h1 : a <<< 8 = 2 ^ 8 * a := by rw [Nat.shiftLeft_eq, Nat.mul_comm]
  rw [h1, ← Nat.mul_add_lt_is_or hb' a]
  norm_num [Nat.mul_comm]

theorem getD_lt_256 {data : List Nat} (hb : ∀ b ∈ data, b < 256) {i : Nat}
    (hi : i < data.length) : data.getD i 0 < 256 := by
  rw [List.getD_eq_getElem?_getD, List.getElem?_eq_getElem hi]
  exact hb _ (List.getElem_mem hi)

theorem EncodeAPDU_readBinary (p1 p2 : Nat) :
    EncodeAPDU 0x00 0xb0 p1 p2 [] apduMaxExtended = .ok [0x00, 0xb0, p1, p2, 0, 0, 0] := rfl

theorem DecodeResponseAPDU_append (p : List Nat) (s1 s2 : Nat) :
    DecodeResponseAPDU (p ++ [s1, s2]) = .ok (s1 <<< 8 ||| s2, p) := by
  rcases p with _ | ⟨a, t⟩
  · simp [DecodeResponseAPDU]
  · have h1 : ((a :: t) ++ [s1, s2]).length = t.length + 3 := by simp
    have h2 : t.length + 3 - 2 = (a :: t).length := by simp
    simp only [DecodeResponseAPDU, h1]
    rw [if_neg (by omega), if_pos (by omega), h2]
    have h3 : ((a :: t) ++ [s1, s2]).getD (a :: t).length 0 = s1 := by
      rw [List.getD_eq_getElem?_getD, List.getElem?_append_right (Nat.le_refl _)]
      simp
    have h4 : ((a :: t) ++ [s1, s2]).getD ((a :: t).length + 1) 0 = s2 := by
      rw [List.getD_eq_getElem?_getD,
        List.getElem?_append_right (Nat.le_add_right _ _)]
      simp
    have h5 : t.length + 3 - 1 = (a :: t).length + 1 := by simp
    rw [h5, h3, h4, List.take_left' rfl]

theorem readBinary_scriptCard_ok (rest : List (List Nat × Option GoErr))
    (ch : List Nat) (off : Nat) :
    readBinary scriptCard ((ch ++ [0x90, 0x00], none) :: rest) off apduMaxExtended =
      (rest, ch, none) := by
  have h90 : (0x90 : Nat) <<< 8 ||| 0x00 = 0x9000 := by decide
  simp [readBinary, EncodeAPDU_readBinary, scriptCard, DecodeResponseAPDU_append, h90]

theorem readBinary_scriptCard_sw (rest : List (List Nat × Option GoErr))
    (p : List Nat) (s1 s2 off : Nat) (h : s1 <<< 8 ||| s2 ≠ 0x9000) :
    readBinary scriptCard ((p ++ [s1, s2], none) :: rest) off apduMaxExtended =
      (rest, [], some (.cardError (s1 <<< 8 ||| s2))) := by
  simp [readBinary, EncodeAPDU_readBinary, scriptCard, DecodeResponseAPDU_append, h]

theorem readBinarySfid_scriptCard_ok (rest : List (List Nat × Option GoErr))
    (ch : List Nat) (sfid off : Nat) :
    readBinarySfid scriptCard ((ch ++ [0x90, 0x00], none) :: rest) sfid off apduMaxExtended =
      (rest, ch, none) := by
  have h90 : (0x90 : Nat) <<< 8 ||| 0x00 = 0x9000 := by decide
  simp [readBinarySfid, EncodeAPDU_readBinary, scriptCard, DecodeResponseAPDU_append, h90]

/-! Theorems about the claims. -/

/-- C10: for every class, instruction, parameters and data, encoding with
`expectedLength = 65536` (`apduMaxExtended`) produces exactly the same
bytes as encoding with the extended wildcard `leWildcardExtended`. -/
theorem EncodeAPDU_extMax_eq_wildcardExtended (cla ins p1 p2 : Nat) (data : List Nat) :
    EncodeAPDU cla ins p1 p2 data apduMaxExtended =
      EncodeAPDU cla ins p1 p2 data leWildcardExtended := by
  have h1 : extendedFlag data apduMaxExtended = true := by
    simp [extendedFlag, apduMaxExtended, apduMaxShort]
  have h2 : extendedFlag data leWildcardExtended = true := by
    simp [extendedFlag, leWildcardExtended]
  have h3 : ∀ first : Bool, encodeLength apduMaxExtended true first =
      encodeLength leWildcardExtended true first := by
    intro first
    cases first <;> rfl
  unfold EncodeAPDU
  rw [h1, h2, h3]

set_option maxRecDepth 4000 in
/-- C5 counterexample: a 256-byte data field does NOT force extended
framing — the extended flag is false and the encoded frame carries the
one-byte short Lc field `0x00` ("short max"), contradicting the claim's
`len(data) == 256 must force extended framing`. -/
theorem EncodeAPDU_len256_short_framing :
    extendedFlag (List.replicate 256 0xaa) 0 = false ∧
    EncodeAPDU 0x00 0xb0 0x00 0x00 (List.replicate 256 0xaa) 0 =
      .ok ([0x00, 0xb0, 0x00, 0x00, 0x00] ++ List.replicate 256 0xaa) := by
  exact ⟨by decide, rfl⟩

set_option maxRecDepth 4000 in
/-- C5 as amended: extended framing is selected iff `len(data) > 256` or
`expectedLength > 256` or `expectedLength` is the extended wildcard; at the
boundary, data lengths 255 and 256 and `expectedLength` 255 and 256 stay in
short framing (256 encoded as the short-max byte `0x00`) while 257 forces
extended framing. -/
theorem extendedFlag_iff_gt256_and_boundaries :
    (∀ (data : List Nat) (le : Int),
      extendedFlag data le = true ↔
        (256 < (data.length : Int) ∨ 256 < le ∨ le = leWildcardExtended)) ∧
    EncodeAPDU 0x00 0xb0 0x00 0x00 (List.replicate 255 0xaa) 0 =
      .ok ([0x00, 0xb0, 0x00, 0x00, 0xff] ++ List.replicate 255 0xaa) ∧
    EncodeAPDU 0x00 0xb0 0x00 0x00 (List.replicate 256 0xaa) 0 =
      .ok ([0x00, 0xb0, 0x00, 0x00, 0x00] ++ List.replicate 256 0xaa) ∧
    EncodeAPDU 0x00 0xb0 0x00 0x00 (List.replicate 257 0xaa) 0 =
      .ok ([0x00, 0xb0, 0x00, 0x00, 0x00, 0x01, 0x01] ++ List.replicate 257 0xaa) ∧
    EncodeAPDU 0x00 0xb0 0x00 0x00 [] 255 = .ok [0x00, 0xb0, 0x00, 0x00, 0xff] ∧
    EncodeAPDU 0x00 0xb0 0x00 0x00 [] 256 = .ok [0x00, 0xb0, 0x00, 0x00, 0x00] ∧
    EncodeAPDU 0x00 0xb0 0x00 0x00 [] 257 =
      .ok [0x00, 0xb0, 0x00, 0x00, 0x00, 0x01, 0x01] := by
  refine ⟨?_, rfl, rfl, rfl, rfl, rfl, rfl⟩
  intro data le
  simp [extendedFlag, apduMaxShort, or_assoc]

/-- C1 (code bug): `readBinaryFull` called with `sfid = efcchenc` still
issues its first READ BINARY with P1 = `0x80|efcchaut` = `0x81`, not
`0x80|efcchenc` = `0x82`: the first transmitted APDU names file 1
regardless of the `sfid` argument. -/
theorem readBinaryFull_first_request_ignores_sfid :
    (readBinaryFull (tracedCard scriptCard) 0 ([([0x6b, 0x00], none)], []) efcchenc).1.2 =
      [[0x00, 0xb0, 0x81, 0x00, 0x00, 0x00, 0x00]] ∧
    0x80 ||| efcchaut = 0x81 ∧ 0x80 ||| efcchenc = 0x82 ∧ (0x81 : Nat) ≠ 0x82 := by
  exact ⟨rfl, by decide, by decide, by decide⟩

/-- C6: `DecodeResponseAPDU` on fewer than 2 bytes is the Go panic
`response apdu too short`; on exactly 2 bytes it returns an empty payload
and the two bytes read big-endian as the status word; on more than 2 bytes
it returns all but the last two bytes as payload and the trailing two
bytes, big-endian, as the status word. -/
theorem DecodeResponseAPDU_spec (data : List Nat) (hb : ∀ b ∈ data, b < 256) :
    (data.length < 2 →
      DecodeResponseAPDU data = .error (.goPanic "response apdu too short")) ∧
    (data.length = 2 →
      DecodeResponseAPDU data = .ok (data.getD 0 0 * 256 + data.getD 1 0, [])) ∧
    (2 < data.length →
      DecodeResponseAPDU data =
        .ok (data.getD (data.length - 2) 0 * 256 + data.getD (data.length - 1) 0,
          data.take (data.length - 2))) := by
  refine ⟨fun h => ?_, fun h => ?_, fun h => ?_⟩
  · simp [DecodeResponseAPDU, h]
  · have h1 : data.getD 1 0 < 256 := getD_lt_256 hb (by omega)
    unfold DecodeResponseAPDU
    rw [h, if_neg (by omega), if_neg (by omega),
      show (2 : Nat) - 2 = 0 from rfl, show (2 : Nat) - 1 = 1 from rfl,
      lor_byte _ _ h1]
  · have h1 : data.getD (data.length - 1) 0 < 256 := getD_lt_256 hb (by omega)
    simp only [DecodeResponseAPDU]
    rw [if_neg (by omega), if_pos h, lor_byte _ _ h1]

/-- C6 witness: the theorem applied to the 3-byte response `ab cd ef`. -/
theorem DecodeResponseAPDU_spec_witness :
    (∀ b ∈ [0xab, 0xcd, 0xef], b < 256) ∧
    DecodeResponseAPDU [0xab, 0xcd, 0xef] = .ok (0xcd * 256 + 0xef, [0xab]) := by
  refine ⟨by decide, ?_⟩
  have h := (DecodeResponseAPDU_spec [0xab, 0xcd, 0xef] (by decide)).2.2 (by decide)
  simpa using h

theorem checkBCD_cons {b : Nat} {t : List Nat} :
    checkBCD (b :: t) = true ↔ b >>> 4 ≤ 9 ∧ b &&& 0xf ≤ 9 ∧ checkBCD t = true := by
  simp [checkBCD, List.all_cons, Nat.not_lt, and_assoc]

theorem bcdFoldl_shift (raw : List Nat) :
    ∀ x : Nat, raw.foldl bcdStep x = x * 100 ^ raw.length + bcdDigitsValue raw := by
  induction raw with
  | nil => intro x; simp [bcdDigitsValue]
  | cons b t ih =>
    intro x
    have h1 : (b :: t).foldl bcdStep x = t.foldl bcdStep (bcdStep x b) := rfl
    have h2 : bcdDigitsValue (b :: t) = t.foldl bcdStep (bcdStep 0 b) := rfl
    rw [h1, h2, ih, ih (bcdStep 0 b)]
    simp only [bcdStep, List.length_cons, pow_succ]
    ring

theorem bcdDigitsValue_lt (raw : List Nat) (h : checkBCD raw = true) :
    bcdDigitsValue raw < 100 ^ raw.length := by
  induction raw with
  | nil => simp [bcdDigitsValue]
  | cons b t ih =>
    rcases checkBCD_cons.mp h with ⟨h1, h2, h3⟩
    have h4 : bcdDigitsValue (b :: t) = bcdStep 0 b * 100 ^ t.length + bcdDigitsValue t := by
      have e : bcdDigitsValue (b :: t) = t.foldl bcdStep (bcdStep 0 b) := rfl
      rw [e, bcdFoldl_shift]
    have h5 := ih h3
    have h6 : bcdStep 0 b + 1 ≤ 100 := by
      simp only [bcdStep]
      omega
    have hpow : (100 : Nat) ^ (b :: t).length = 100 * 100 ^ t.length := by
      simp [List.length_cons, pow_succ, Nat.mul_comm]
    rw [h4, hpow]
    calc bcdStep 0 b * 100 ^ t.length + bcdDigitsValue t
        < bcdStep 0 b * 100 ^ t.length + 100 ^ t.length := Nat.add_lt_add_left h5 _
      _ = (bcdStep 0 b + 1) * 100 ^ t.length := by ring
      _ ≤ 100 * 100 ^ t.length := Nat.mul_le_mul_right _ h6

theorem decodeBCD_step_eq (x b : Nat) (h : bcdStep x b < 18446744073709551616) :
    decodeBCDStep x b = bcdStep x b := by
  unfold bcdStep at h
  unfold decodeBCDStep bcdStep
  generalize hhi : b >>> 4 = hi at *
  generalize hlo : b &&& 0xf = lo at *
  have h1 : x * 10 < 18446744073709551616 := by omega
  rw [Nat.mod_eq_of_lt h1]
  have h2 : x * 10 + hi < 18446744073709551616 := by omega
  rw [Nat.mod_eq_of_lt h2]
  have h3 : (x * 10 + hi) * 10 < 18446744073709551616 := by omega
  rw [Nat.mod_eq_of_lt h3]
  have h4 : (x * 10 + hi) * 10 + lo < 18446744073709551616 := by omega
  rw [Nat.mod_eq_of_lt h4]
  ring

theorem decodeBCD_foldl_eq (raw : List Nat) :
    ∀ x : Nat, checkBCD raw = true →
      x * 100 ^ raw.length + bcdDigitsValue raw < 18446744073709551616 →
      raw.foldl decodeBCDStep x = x * 100 ^ raw.length + bcdDigitsValue raw := by
  induction raw with
  | nil =>
    intro x _ _
    simp [bcdDigitsValue]
  | cons b t ih =>
    intro x hc hlt
    rcases checkBCD_cons.mp hc with ⟨h1, h2, h3⟩
    have hval : bcdDigitsValue (b :: t) = bcdStep 0 b * 100 ^ t.length + bcdDigitsValue t := by
      have e : bcdDigitsValue (b :: t) = t.foldl bcdStep (bcdStep 0 b) := rfl
      rw [e, bcdFoldl_shift]
    have hpow : (100 : Nat) ^ (b :: t).length = 100 ^ t.length * 100 := by
      simp [List.length_cons, pow_succ]
    have e : bcdStep x b * 100 ^ t.length + bcdDigitsValue t
        = x * 100 ^ (b :: t).length + bcdDigitsValue (b :: t) := by
      rw [hval, hpow]
      unfold bcdStep
      ring
    have hx : bcdStep x b * 100 ^ t.length + bcdDigitsValue t < 18446744073709551616 := by
      rw [e]; exact hlt
    have hstep : bcdStep x b < 18446744073709551616 := by
      have hp : 0 < 100 ^ t.length := pow_pos (by norm_num) _
      have hle : bcdStep x b ≤ bcdStep x b * 100 ^ t.length := Nat.le_mul_of_pos_right _ hp
      omega
    have e1 : (b :: t).foldl decodeBCDStep x = t.foldl decodeBCDStep (decodeBCDStep x b) := rfl
    rw [e1, decodeBCD_step_eq x b hstep, ih (bcdStep x b) h3 hx, e]

theorem decodeBCD_eq_value (raw : List Nat) (hc : checkBCD raw = true)
    (hlen : 100 ^ raw.length ≤ 18446744073709551616) :
    decodeBCD raw = bcdDigitsValue raw := by
  have hv := bcdDigitsValue_lt raw hc
  have h := decodeBCD_foldl_eq raw 0 hc (by omega)
  simpa [decodeBCD] using h

/-- C7 counterexample: on the valid BCD bytes `01 02 03 04 05` the code
returns `"10.203.405"` (a 3/3/4 digit split), not the `"1.20.30405"` that
the claim's `digits[0..2]/[2..5]/[5..10]` split prescribes. -/
theorem parseBCDVersion_spec_split_fails :
    parseBCDVersion [0x01, 0x02, 0x03, 0x04, 0x05] = "10.203.405" ∧
    bcdVersionSpecSplit [0x01, 0x02, 0x03, 0x04, 0x05] = "1.20.30405" ∧
    parseBCDVersion [0x01, 0x02, 0x03, 0x04, 0x05] ≠
      bcdVersionSpecSplit [0x01, 0x02, 0x03, 0x04, 0x05] := by
  refine ⟨?_, ?_, ?_⟩ <;> decide

/-- C7 as amended: `parseBCDVersion` returns the fixed marker `"<invalid>"`
whenever the input length is not 5 or some nibble exceeds 9 (and, being a
total function, never throws); on valid input it splits the 10-digit BCD
value as digits `[0..3]` / `[3..6]` / `[6..10]` by decimal place value —
a 3-digit major, 3-digit minor and 4-digit patch. -/
theorem parseBCDVersion_digit_split (raw : List Nat) :
    (raw.length ≠ 5 ∨ checkBCD raw = false → parseBCDVersion raw = "<invalid>") ∧
    (raw.length = 5 → checkBCD raw = true →
      parseBCDVersion raw =
        toString (bcdDigitsValue raw / 10000000) ++ "." ++
        toString (bcdDigitsValue raw / 10000 % 1000) ++ "." ++
        toString (bcdDigitsValue raw % 10000)) := by
  constructor
  · intro h
    unfold parseBCDVersion
    rw [if_pos h]
  · intro h5 hc
    have hx : decodeBCD raw = bcdDigitsValue raw :=
      decodeBCD_eq_value raw hc (by rw [h5]; norm_num)
    unfold parseBCDVersion
    rw [if_neg (by simp [h5, hc]), hx]

/-- C7 witness: the amended theorem applied to `01 02 03 04 05`. -/
theorem parseBCDVersion_digit_split_witness :
    ([0x01, 0x02, 0x03, 0x04, 0x05] : List Nat).length = 5 ∧
    checkBCD [0x01, 0x02, 0x03, 0x04, 0x05] = true ∧
    parseBCDVersion [0x01, 0x02, 0x03, 0x04, 0x05] =
      toString (bcdDigitsValue [0x01, 0x02, 0x03, 0x04, 0x05] / 10000000) ++ "." ++
      toString (bcdDigitsValue [0x01, 0x02, 0x03, 0x04, 0x05] / 10000 % 1000) ++ "." ++
      toString (bcdDigitsValue [0x01, 0x02, 0x03, 0x04, 0x05] % 10000) :=
  ⟨by decide, by decide,
    (parseBCDVersion_digit_split [0x01, 0x02, 0x03, 0x04, 0x05]).2 (by decide) (by decide)⟩

/-- C8 counterexample: decoding the 10-byte serial `00 12 34 56 78 90 12 34
56 78` gives `CountryCode = 123` — the three most-significant digits of the
18-digit BCD value — while the claim's 1-digit country-code field would be
`1`. -/
theorem ICCSN_UnmarshalBinary_spec_split_fails :
    ICCSN.UnmarshalBinary [0x00, 0x12, 0x34, 0x56, 0x78, 0x90, 0x12, 0x34, 0x56, 0x78] =
      .ok { MajorIndustryIdentifier := 0x00, CountryCode := 123,
            IssuerIdentifier := 45678, SerialNumber := 9012345678 } ∧
    iccsnSpecCountryCode [0x00, 0x12, 0x34, 0x56, 0x78, 0x90, 0x12, 0x34, 0x56, 0x78] = 1 ∧
    (123 : Nat) ≠ 1 := by
  refine ⟨rfl, by decide, by decide⟩

/-- C8 as amended: on a 10-byte input whose bytes 1..9 are valid BCD,
`ICCSN.UnmarshalBinary` takes byte 0 as the major industry identifier and
splits the 18-digit BCD value of bytes 1..9 by decimal place value into a
3-digit country-code field (the most-significant digit group), the next 5
digits as issuer identifier, and the trailing 10 digits as serial number;
any other length is the `too short` error. -/
theorem ICCSN_UnmarshalBinary_digit_split (raw : List Nat) :
    (raw.length ≠ 10 → ICCSN.UnmarshalBinary raw = .error "too short") ∧
    (raw.length = 10 → checkBCD (raw.drop 1) = true →
      ICCSN.UnmarshalBinary raw = .ok {
        MajorIndustryIdentifier := raw.getD 0 0
        CountryCode := bcdDigitsValue (raw.drop 1) / 1000000000000000
        IssuerIdentifier := bcdDigitsValue (raw.drop 1) / 10000000000 % 100000
        SerialNumber := bcdDigitsValue (raw.drop 1) % 10000000000 }) := by
  constructor
  · intro h
    unfold ICCSN.UnmarshalBinary
    rw [if_pos h]
  · intro h10 hc
    have hlen9 : (raw.drop 1).length = 9 := by rw [List.length_drop, h10]
    have hx : decodeBCD (raw.drop 1) = bcdDigitsValue (raw.drop 1) :=
      decodeBCD_eq_value _ hc (by rw [hlen9]; norm_num)
    unfold ICCSN.UnmarshalBinary
    rw [if_neg (by omega), hx]

/-- C8 witness: the amended theorem applied to `00 12 34 56 78 90 12 34 56
78`. -/
theorem ICCSN_UnmarshalBinary_digit_split_witness :
    ([0x00, 0x12, 0x34, 0x56, 0x78, 0x90, 0x12, 0x34, 0x56, 0x78] : List Nat).length = 10 ∧
    checkBCD (([0x00, 0x12, 0x34, 0x56, 0x78, 0x90, 0x12, 0x34, 0x56, 0x78] : List Nat).drop 1) =
      true ∧
    ICCSN.UnmarshalBinary [0x00, 0x12, 0x34, 0x56, 0x78, 0x90, 0x12, 0x34, 0x56, 0x78] = .ok {
      MajorIndustryIdentifier :=
        ([0x00, 0x12, 0x34, 0x56, 0x78, 0x90, 0x12, 0x34, 0x56, 0x78] : List Nat).getD 0 0
      CountryCode :=
        bcdDigitsValue (([0x00, 0x12, 0x34, 0x56, 0x78, 0x90, 0x12, 0x34, 0x56, 0x78] :
          List Nat).drop 1) / 1000000000000000
      IssuerIdentifier :=
        bcdDigitsValue (([0x00, 0x12, 0x34, 0x56, 0x78, 0x90, 0x12, 0x34, 0x56, 0x78] :
          List Nat).drop 1) / 10000000000 % 100000
      SerialNumber :=
        bcdDigitsValue (([0x00, 0x12, 0x34, 0x56, 0x78, 0x90, 0x12, 0x34, 0x56, 0x78] :
          List Nat).drop 1) % 10000000000 } :=
  ⟨by decide, by decide,
    (ICCSN_UnmarshalBinary_digit_split
      [0x00, 0x12, 0x34, 0x56, 0x78, 0x90, 0x12, 0x34, 0x56, 0x78]).2 (by decide) (by decide)⟩

theorem loop_script_step (fuel : Nat) (ch raw : List Nat)
    (rest : List (List Nat × Option GoErr)) (h : raw.length < 65536) :
    readBinaryFullLoop scriptCard (fuel + 1) ((ch ++ [0x90, 0x00], none) :: rest) raw =
      readBinaryFullLoop scriptCard fuel rest (raw ++ ch) := by
  simp only [readBinaryFullLoop, if_pos h, readBinary_scriptCard_ok]

theorem loop_script_eof (cs : List (List Nat)) :
    ∀ (raw p : List Nat) (fuel : Nat),
      raw.length + cs.flatten.length < 65536 → cs.length < fuel →
      readBinaryFullLoop scriptCard fuel
          ((cs.map (fun ch => (ch ++ [0x90, 0x00], (none : Option GoErr))) ++
            [(p ++ [0x6b, 0x00], none)] : List (List Nat × Option GoErr))) raw =
        ([], some (raw ++ cs.flatten, none)) := by
  induction cs with
  | nil =>
    intro raw p fuel h hf
    rcases fuel with _ | f
    · simp at hf
    simp only [List.map_nil, List.nil_append, List.flatten_nil, List.append_nil] at h ⊢
    have h6b : ((0x6b : Nat) <<< 8 ||| 0x00) = 0x6b00 := by decide
    have hsw := readBinary_scriptCard_sw [] p 0x6b 0x00 (raw.length % 65536) (by decide)
    rw [h6b] at hsw
    simp only [readBinaryFullLoop, if_pos (show raw.length < 65536 by omega), hsw]
    simp
  | cons ch cs ih =>
    intro raw p fuel h hf
    rcases fuel with _ | f
    · simp at hf
    have hraw : raw.length < 65536 := by simp at h; omega
    rw [List.map_cons, List.cons_append, loop_script_step f ch raw _ hraw,
      ih (raw ++ ch) p f (by simp at h ⊢; omega) (by simp at hf; omega)]
    simp

/-- C2: whenever the first chained call and every following call succeed
with chunks `cs` (total below 65536) and the next call fails with status
word `0x6b00`, `readBinaryFull` surfaces no error and returns exactly the
concatenation of the chunks — the payload bytes accompanying the failing
response (`p`) are discarded by `readBinary` before the `0x6b00` is
recognised, so the result is precisely the accumulated chunks. -/
theorem readBinaryFull_eof_6b00 (cs : List (List Nat)) (p : List Nat) (fuel sfid : Nat)
    (hne : cs ≠ []) (hlen : cs.flatten.length < 65536) (hfuel : cs.length ≤ fuel) :
    (readBinaryFull scriptCard fuel
        ((cs.map (fun ch => (ch ++ [0x90, 0x00], (none : Option GoErr))) ++
          [(p ++ [0x6b, 0x00], none)] : List (List Nat × Option GoErr))) sfid).2 =
      some (cs.flatten, none) := by
  rcases cs with _ | ⟨c, cs⟩
  · exact absurd rfl hne
  · have h1 : c.length + cs.flatten.length < 65536 := by simp at hlen ⊢; omega
    have h2 : cs.length < fuel := by simp at hfuel; omega
    simp only [List.map_cons, List.cons_append, readBinaryFull, readBinarySfid_scriptCard_ok]
    rw [loop_script_eof cs c p fuel h1 h2]
    simp

set_option maxRecDepth 8000 in
/-- C2 witness: chunks of 200 and 200 bytes followed by a `0x6b00` failure
yield the 400-byte concatenation with no error surfaced. -/
theorem readBinaryFull_eof_6b00_witness :
    ([List.replicate 200 0xaa, List.replicate 200 0xbb] : List (List Nat)) ≠ [] ∧
    ([List.replicate 200 0xaa, List.replicate 200 0xbb] : List (List Nat)).flatten.length < 65536 ∧
    (readBinaryFull scriptCard 2
        ((([List.replicate 200 0xaa, List.replicate 200 0xbb] : List (List Nat)).map
            (fun ch => (ch ++ [0x90, 0x00], (none : Option GoErr))) ++
          [(([] : List Nat) ++ [0x6b, 0x00], none)] : List (List Nat × Option GoErr))) efcchenc).2 =
      some (([List.replicate 200 0xaa, List.replicate 200 0xbb] : List (List Nat)).flatten, none) :=
  ⟨by decide, by decide,
    readBinaryFull_eof_6b00 [List.replicate 200 0xaa, List.replicate 200 0xbb] [] 2 efcchenc
      (by decide) (by decide) (by decide)⟩

theorem loop_script_fail (cs : List (List Nat)) :
    ∀ (raw p : List Nat) (s1 s2 fuel : Nat),
      raw.length + cs.flatten.length < 65536 → cs.length < fuel →
      s1 <<< 8 ||| s2 ≠ 0x9000 → s1 <<< 8 ||| s2 ≠ 0x6b00 →
      readBinaryFullLoop scriptCard fuel
          ((cs.map (fun ch => (ch ++ [0x90, 0x00], (none : Option GoErr))) ++
            [(p ++ [s1, s2], none)] : List (List Nat × Option GoErr))) raw =
        ([], some ([], some (.cardError (s1 <<< 8 ||| s2)))) := by
  induction cs with
  | nil =>
    intro raw p s1 s2 fuel h hf h9 h6
    rcases fuel with _ | f
    · simp at hf
    simp only [List.map_nil, List.nil_append, List.flatten_nil, List.append_nil] at h ⊢
    have hsw := readBinary_scriptCard_sw [] p s1 s2 (raw.length % 65536) h9
    simp only [readBinaryFullLoop, if_pos (show raw.length < 65536 by omega), hsw]
    rw [if_neg (by simp [h6])]
  | cons ch cs ih =>
    intro raw p s1 s2 fuel h hf h9 h6
    rcases fuel with _ | f
    · simp at hf
    have hraw : raw.length < 65536 := by simp at h; omega
    rw [List.map_cons, List.cons_append, loop_script_step f ch raw _ hraw,
      ih (raw ++ ch) p s1 s2 f (by simp at h ⊢; omega) (by simp at hf; omega) h9 h6]

/-- C3: whenever the first chained call and every following call succeed
with chunks `cs` (total below 65536) and the next call fails with a status
word other than `0x9000` and `0x6b00`, `readBinaryFull` aborts with the
`cardError` carrying that status word and returns no data (the Go `nil`
slice): every previously accumulated chunk is discarded, all-or-nothing. -/
theorem readBinaryFull_aborts_on_other_sw (cs : List (List Nat)) (p : List Nat)
    (s1 s2 fuel sfid : Nat) (hne : cs ≠ []) (hlen : cs.flatten.length < 65536)
    (hfuel : cs.length ≤ fuel) (h9 : s1 <<< 8 ||| s2 ≠ 0x9000)
    (h6 : s1 <<< 8 ||| s2 ≠ 0x6b00) :
    (readBinaryFull scriptCard fuel
        ((cs.map (fun ch => (ch ++ [0x90, 0x00], (none : Option GoErr))) ++
          [(p ++ [s1, s2], none)] : List (List Nat × Option GoErr))) sfid).2 =
      some ([], some (.cardError (s1 <<< 8 ||| s2))) := by
  rcases cs with _ | ⟨c, cs⟩
  · exact absurd rfl hne
  · have h1 : c.length + cs.flatten.length < 65536 := by simp at hlen ⊢; omega
    have h2 : cs.length < fuel := by simp at hfuel; omega
    simp only [List.map_cons, List.cons_append, readBinaryFull, readBinarySfid_scriptCard_ok]
    rw [loop_script_fail cs c p s1 s2 fuel h1 h2 h9 h6]

set_option maxRecDepth 8000 in
/-- C3 witness: a first chunk of 200 bytes followed by a `0x6a82` failure
aborts the whole read with `cardError 0x6a82`, discarding the 200 bytes. -/
theorem readBinaryFull_aborts_on_other_sw_witness :
    ((0x6a : Nat) <<< 8 ||| 0x82 = 0x6a82) ∧
    (readBinaryFull scriptCard 1
        ((([List.replicate 200 0xaa] : List (List Nat)).map
            (fun ch => (ch ++ [0x90, 0x00], (none : Option GoErr))) ++
          [(([] : List Nat) ++ [0x6a, 0x82], none)] : List (List Nat × Option GoErr))) efcchenc).2 =
      some ([], some (.cardError ((0x6a : Nat) <<< 8 ||| 0x82))) :=
  ⟨by decide,
    readBinaryFull_aborts_on_other_sw [List.replicate 200 0xaa] [] 0x6a 0x82 1 efcchenc
      (by decide) (by decide) (by decide) (by decide) (by decide)⟩

/-- C9: the offset-pair slicing of EF.VD (`parseVD` / `parseGVDFromEFVD`):
with the big-endian 16-bit offsets `start`/`end` read at positions 0/2
(resp. 4/6), the function fails — returning an error and performing no
slice — exactly when `end < start` or `end > len(buffer)`, and otherwise
returns `buffer[start:end]`; when `end` equals the buffer length the
maximal valid slice is returned. -/
theorem parseVDSlice_offsetPair_spec (raw : List Nat) :
    (4 ≤ raw.length →
      (beUint16 raw 2 < beUint16 raw 0 ∨ raw.length < beUint16 raw 2 →
        parseVDSlice raw = .error "vd invalid start/end offset") ∧
      (beUint16 raw 0 ≤ beUint16 raw 2 → beUint16 raw 2 ≤ raw.length →
        parseVDSlice raw =
          .ok ((raw.drop (beUint16 raw 0)).take (beUint16 raw 2 - beUint16 raw 0))) ∧
      (beUint16 raw 0 ≤ beUint16 raw 2 → beUint16 raw 2 = raw.length →
        parseVDSlice raw = .ok (raw.drop (beUint16 raw 0)))) ∧
    (8 ≤ raw.length →
      (beUint16 raw 6 < beUint16 raw 4 ∨ raw.length < beUint16 raw 6 →
        parseGVDSlice raw = .error "gvd invalid start/end offset") ∧
      (beUint16 raw 4 ≤ beUint16 raw 6 → beUint16 raw 6 ≤ raw.length →
        parseGVDSlice raw =
          .ok ((raw.drop (beUint16 raw 4)).take (beUint16 raw 6 - beUint16 raw 4))) ∧
      (beUint16 raw 4 ≤ beUint16 raw 6 → beUint16 raw 6 = raw.length →
        parseGVDSlice raw = .ok (raw.drop (beUint16 raw 4)))) := by
  constructor
  · intro h4
    refine ⟨fun hbad => ?_, fun hle hub => ?_, fun hle heq => ?_⟩
    · simp only [parseVDSlice]
      rw [if_neg (by omega), if_pos (by omega)]
    · simp only [parseVDSlice]
      rw [if_neg (by omega), if_neg (by omega)]
    · simp only [parseVDSlice]
      rw [if_neg (by omega), if_neg (by omega)]
      have hd : (raw.drop (beUint16 raw 0)).length ≤ beUint16 raw 2 - beUint16 raw 0 := by
        simp [List.length_drop]
        omega
      rw [List.take_of_length_le hd]
  · intro h8
    refine ⟨fun hbad => ?_, fun hle hub => ?_, fun hle heq => ?_⟩
    · simp only [parseGVDSlice]
      rw [if_neg (by omega), if_pos (by omega)]
    · simp only [parseGVDSlice]
      rw [if_neg (by omega), if_neg (by omega)]
    · simp only [parseGVDSlice]
      rw [if_neg (by omega), if_neg (by omega)]
      have hd : (raw.drop (beUint16 raw 4)).length ≤ beUint16 raw 6 - beUint16 raw 4 := by
        simp [List.length_drop]
        omega
      rw [List.take_of_length_le hd]

/-- C9 witness: `start = 10, end = 5` fails although both offsets are
readable, and `end` equal to the buffer length returns the maximal slice. -/
theorem parseVDSlice_offsetPair_spec_witness :
    parseVDSlice [0x00, 0x0a, 0x00, 0x05] = .error "vd invalid start/end offset" ∧
    parseVDSlice [0x00, 0x04, 0x00, 0x06, 0xaa, 0xbb] = .ok [0xaa, 0xbb] := by
  constructor
  · exact ((parseVDSlice_offsetPair_spec [0x00, 0x0a, 0x00, 0x05]).1 (by decide)).1 (by decide)
  · have h := ((parseVDSlice_offsetPair_spec [0x00, 0x04, 0x00, 0x06, 0xaa, 0xbb]).1
      (by decide)).2.2 (by decide) (by decide)
    exact h.trans (by rfl)

theorem EncodeAPDU_rbReq (off : Nat) :
    EncodeAPDU 0x00 0xb0 ((off >>> 8) % 256) (off % 256) [] apduMaxExtended =
      .ok (rbReq off) := rfl

theorem requestOffset_rbReq (off : Nat) (h : off < 65536) :
    requestOffset (rbReq off) = off := by
  simp only [requestOffset, rbReq, List.getD_cons_succ, List.getD_cons_zero]
  have h1 : off >>> 8 = off / 256 := by
    rw [Nat.shiftRight_eq_div_pow]
  have h2 : off / 256 < 256 := by omega
  rw [h1, Nat.mod_eq_of_lt h2]
  omega

theorem readBinary_traced (c : Card) (s : c.State) (log : List (List Nat)) (off : Nat) :
    readBinary (tracedCard c) (s, log) off apduMaxExtended =
      (((readBinary c s off apduMaxExtended).1, log ++ [rbReq off]),
        (readBinary c s off apduMaxExtended).2) := by
  simp only [readBinary, EncodeAPDU_rbReq, tracedCard]
  rcases hr : c.transmit s (rbReq off) with ⟨s1, rsp, err⟩
  simp only [hr]
  rcases err with _ | e
  · rcases hd : DecodeResponseAPDU rsp with e | ⟨sw, data⟩
    · simp [hd]
    · by_cases hsw : sw = 0x9000 <;> simp [hd, hsw]
  · simp

theorem readBinary_success_nonempty (c : Card)
    (hresp : ∀ s cmd, (c.transmit s cmd).2.2 = none → 2 < (c.transmit s cmd).2.1.length)
    (s : c.State) (off : Nat)
    (h : (readBinary c s off apduMaxExtended).2.2 = none) :
    0 < (readBinary c s off apduMaxExtended).2.1.length := by
  simp only [readBinary, EncodeAPDU_rbReq] at h ⊢
  rcases he : c.transmit s (rbReq off) with ⟨s1, rsp, err⟩
  rw [he] at h
  rcases err with _ | e
  · have hlen : 2 < rsp.length := by
      have hx := hresp s (rbReq off)
      rw [he] at hx
      exact hx rfl
    have hd : DecodeResponseAPDU rsp =
        .ok ((rsp.getD (rsp.length - 2) 0) <<< 8 ||| rsp.getD (rsp.length - 1) 0,
          rsp.take (rsp.length - 2)) := by
      unfold DecodeResponseAPDU
      rw [if_neg (by omega), if_pos (by omega)]
    simp only [hd] at h ⊢
    by_cases hsw :
        (rsp.getD (rsp.length - 2) 0) <<< 8 ||| rsp.getD (rsp.length - 1) 0 = 0x9000
    · rw [hsw] at h ⊢
      simp [List.length_take]
      omega
    · rw [if_pos hsw] at h
      simp at h
  · simp at h

theorem loop_traced_pairwise (c : Card)
    (hresp : ∀ s cmd, (c.transmit s cmd).2.2 = none → 2 < (c.transmit s cmd).2.1.length) :
    ∀ (fuel : Nat) (s : c.State) (log : List (List Nat)) (raw : List Nat),
      ∃ cmds : List (List Nat),
        (readBinaryFullLoop (tracedCard c) fuel (s, log) raw).1.2 = log ++ cmds ∧
        (∀ o ∈ cmds.map requestOffset, raw.length ≤ o) ∧
        (cmds.map requestOffset).Pairwise (· < ·) := by
  intro fuel
  induction fuel with
  | zero =>
    intro s log raw
    exact ⟨[], by simp [readBinaryFullLoop], by simp, by simp⟩
  | succ f ih =>
    intro s log raw
    by_cases hg : raw.length < 65536
    · have hoff : raw.length % 65536 = raw.length := Nat.mod_eq_of_lt hg
      have hrt := readBinary_traced c s log (raw.length % 65536)
      rcases hrb : readBinary c s (raw.length % 65536) apduMaxExtended with ⟨s1, data, err⟩
      rw [hrb] at hrt
      simp only [] at hrt
      rcases err with _ | e
      · have hdata : 0 < data.length := by
          have hx := readBinary_success_nonempty c hresp s (raw.length % 65536) (by rw [hrb])
          rw [hrb] at hx
          exact hx
        obtain ⟨cmds, hlog, hlb, hpw⟩ :=
          ih s1 (log ++ [rbReq (raw.length % 65536)]) (raw ++ data)
        refine ⟨rbReq (raw.length % 65536) :: cmds, ?_, ?_, ?_⟩
        · simp only [readBinaryFullLoop, if_pos hg, hrt]
          rw [hlog]
          simp
        · intro o ho
          simp only [List.map_cons, List.mem_cons] at ho
          rcases ho with rfl | ho
          · rw [requestOffset_rbReq _ (by omega), hoff]
          · have hlbo := hlb o ho
            simp only [List.length_append] at hlbo
            omega
        · simp only [List.map_cons]
          rw [List.pairwise_cons]
          constructor
          · intro o ho
            have hlbo := hlb o ho
            have he : requestOffset (rbReq (raw.length % 65536)) = raw.length := by
              rw [requestOffset_rbReq _ (by omega), hoff]
            rw [he]
            simp only [List.length_append] at hlbo
            omega
          · exact hpw
      · refine ⟨[rbReq (raw.length % 65536)], ?_, ?_, ?_⟩
        · simp only [readBinaryFullLoop, if_pos hg, hrt]
          by_cases h6 : e = GoErr.cardError 0x6b00 <;> simp [h6]
        · intro o ho
          simp only [List.map_cons, List.map_nil, List.mem_singleton] at ho
          subst ho
          rw [requestOffset_rbReq _ (by omega), hoff]
        · simp
    · exact ⟨[], by simp [readBinaryFullLoop, if_neg hg], by simp, by simp⟩

/-- C4 counterexample: against a transport whose every response is the bare
success status `90 00` (a zero-length payload), the chained-read loop
transmits the READ BINARY request for offset 0 twice in a row — it
re-requests an already-requested offset, so its request offsets are not
strictly increasing. -/
theorem readBinaryFullLoop_rerequests_offset :
    ((readBinaryFullLoop (tracedCard (constCard [0x90, 0x00])) 2 ((), []) []).1.2).map
        requestOffset = [0, 0] ∧
    ¬ (((readBinaryFullLoop (tracedCard (constCard [0x90, 0x00])) 2 ((), []) []).1.2).map
        requestOffset).Pairwise (· < ·) := by
  exact ⟨rfl, by decide⟩

/-- C4 as amended: provided every successful transmit carries a nonempty
payload (a response longer than the 2 status bytes), the offsets of the
READ BINARY requests issued by the `readBinaryFull` loop are strictly
increasing, so no offset is ever re-requested; the loop is sequential by
construction, so at most one read is pending at a time.  (The
counterexample shows the proviso is necessary: a zero-length successful
payload makes the loop re-request the same offset.) -/
theorem readBinaryFullLoop_offsets_strictly_increase (c : Card)
    (hresp : ∀ s cmd, (c.transmit s cmd).2.2 = none → 2 < (c.transmit s cmd).2.1.length)
    (fuel : Nat) (s : c.State) (raw : List Nat) :
    (((readBinaryFullLoop (tracedCard c) fuel (s, []) raw).1.2).map requestOffset).Pairwise
      (· < ·) := by
  obtain ⟨cmds, hlog, _, hpw⟩ := loop_traced_pairwise c hresp fuel s [] raw
  rw [hlog]
  simpa using hpw

/-- C4 witness: the amended theorem applied to a transport answering every
request with the 3-byte response `aa 90 00` (1-byte payload). -/
theorem readBinaryFullLoop_offsets_strictly_increase_witness :
    (∀ (s : Unit) (cmd : List Nat),
      ((constCard [0xaa, 0x90, 0x00]).transmit s cmd).2.2 = none →
        2 < ((constCard [0xaa, 0x90, 0x00]).transmit s cmd).2.1.length) ∧
    (((readBinaryFullLoop (tracedCard (constCard [0xaa, 0x90, 0x00])) 3 ((), []) []).1.2).map
        requestOffset).Pairwise (· < ·) :=
  ⟨fun s cmd _ => by simp [constCard],
    readBinaryFullLoop_offsets_strictly_increase (constCard [0xaa, 0x90, 0x00])
      (fun s cmd _ => by simp [constCard]) 3 () []⟩

end Egkdump
